import Mathlib

/-!
Verification of the veawco repository: versioned in-memory person APIs
(`v1Api` .. `v4Api` in src/index.js) with object-literal stores, ad-hoc
store migrations (the `Object.assign` copy for v2, the `reduce` with
`v3PersonTov4Person` for v4), and, following the design document, a
schema compatibility checker, a migration-step registry and a state
migrator.

JavaScript objects used as dictionaries are embedded as ordered
association lists with unique keys: `objGet` is property lookup
(`undefined` becomes `none`), `objSet` is property assignment (replace
in place when the key exists, append otherwise), `objectAssign` is
`Object.assign`. JS `Date` values are embedded as epoch milliseconds
(`Int`); the ambient clock `new Date()` becomes an explicit `now`
argument.
-/

namespace Veawco

/-- Property read `m[k]` on a JS object: the value at the first matching
key, or `none` for JavaScript's `undefined`. -/
def objGet {α : Type} (m : List (String × α)) (k : String) : Option α :=
  (m.find? (fun e => e.1 == k)).map (fun e => e.2)

/-- Property write `m[k] = v` on a JS object: replace the existing entry
for `k` in place, or append a new entry when `k` is absent. -/
def objSet {α : Type} (m : List (String × α)) (k : String) (v : α) : List (String × α) :=
  if m.any (fun e => e.1 == k) then
    m.map (fun e => if e.1 == k then (k, v) else e)
  else m ++ [(k, v)]

/-- The (two-argument) `Object.assign(target, source)` of src/index.js
line 67: copy every own enumerable property of `source` onto `target`. -/
def objectAssign {α : Type} (target source : List (String × α)) : List (String × α) :=
  source.foldl (fun acc e => objSet acc e.1 e.2) target

/-- The record type `v1Person = { id, name, age }` of src/index.js. -/
structure v1Person where
  id : String
  name : String
  age : Int
  deriving DecidableEq, Repr

/-- src/index.js: `type v2Person = v1Person`. -/
abbrev v2Person := v1Person

/-- src/index.js: `type v3Person = v2Person`. -/
abbrev v3Person := v2Person

/-- The record type `v4Person = { id, name, age, birth }` of src/index.js;
the `birth : Date` field is embedded as epoch milliseconds. -/
structure v4Person where
  id : String
  name : String
  age : Int
  birth : Int
  deriving DecidableEq, Repr

/-- The `getPerson` method shared by every api instance in src/index.js
(lines 58-60, 68-70, 92-94, 120-122): `return this.people[id]`. -/
def getPerson {α : Type} (people : List (String × α)) (id : String) : Option α :=
  objGet people id

/-- The `addPerson` method shared by every api instance in src/index.js
(lines 61-63, 71-73, 95-97, 123-125): `this.people[person.id] = person`.
The `idOf` argument is the `.id` field access of the concrete person type. -/
def addPerson {α : Type} (idOf : α → String) (people : List (String × α)) (p : α) :
    List (String × α) :=
  objSet people (idOf p) p

/-- The offset literal `10 * 60 * 60 * 24 * 365` of src/index.js line 130
(milliseconds, because JS coerces the Date to milliseconds before subtracting). -/
def tenYearsish : Int := 10 * 60 * 60 * 24 * 365

/-- The adapter `v3PersonTov4Person` of src/index.js lines 129-131:
`Object.assign({}, person, { birth: new Date(new Date() - 10*60*60*24*365) })`.
The call to `new Date()` reads the ambient clock, which appears here as the
explicit argument `now`. -/
def v3PersonTov4Person (now : Int) (person : v3Person) : v4Person :=
  { id := person.id, name := person.name, age := person.age, birth := now - tenYearsish }

/-- The store migration of `v4ApiInstance` (src/index.js lines 116-119):
`Object.keys(v3ApiInstance.people).reduce((people, id) => { people[id] =
v3PersonTov4Person(...); return people }, {})`, iterating the unique keys
of the v3 store and populating a brand-new object. -/
def migrateV3toV4 (now : Int) (people : List (String × v3Person)) :
    List (String × v4Person) :=
  people.foldl (fun acc e => objSet acc e.1 (v3PersonTov4Person now e.2)) []

/-- The person `{ id: '1', name: 'fred', age: 23 }` added in the example
workflow of src/index.js line 82. -/
def fredPerson : v1Person := ⟨"1", "fred", 23⟩

/-- The id-name-age content of a v4 person, without the clock-derived
`birth` field. -/
def personContent (p : v4Person) : String × String × Int := (p.id, p.name, p.age)

/-- The id-name-age content of one store entry, without the clock-derived
`birth` field. -/
def entryContent (e : String × v4Person) : String × String × String × Int :=
  (e.1, personContent e.2)

/-- Modelled from the spec: the Migration Function Registry (design §4.3),
absent from src/, stores per source version a pure per-record transform to
the next version; a failing transform reports a cause string. -/
structure Registry (α : Type) where
  steps : List (Nat × (α → Except String α))

/-- Modelled from the spec: error taxonomy of `registerStep` (design §4.3):
rejected when `to != from + 1`, or when a step for `from` already exists. -/
inductive RegistrationError where
  | stepSkipsVersion
  | duplicateStep
  deriving DecidableEq, Repr

/-- Modelled from the spec: migration errors of the State Migrator (design
§4.4 and §7): `NoPathError` when an intermediate step is missing,
`RecordMigrationError` carrying recordId and cause when one record's
transform fails. -/
inductive MigrationError where
  | NoPathError
  | RecordMigrationError (recordId : String) (cause : String)
  deriving DecidableEq, Repr

/-- Modelled from the spec: `registerStep(from, to, transform)` (design
§4.3), absent from src/; rejects `to != from + 1` (no skipping) and a second
step for the same `from` (no redefinition). -/
def registerStep {α : Type} (reg : Registry α) (src tgt : Nat)
    (transform : α → Except String α) : Except RegistrationError (Registry α) :=
  if tgt ≠ src + 1 then .error .stepSkipsVersion
  else if reg.steps.any (fun s => s.1 == src) then .error .duplicateStep
  else .ok ⟨reg.steps ++ [(src, transform)]⟩

/-- Modelled from the spec: the registered step out of version `v`, when
one exists. -/
def stepAt {α : Type} (reg : Registry α) (v : Nat) : Option (α → Except String α) :=
  (reg.steps.find? (fun s => s.1 == v)).map (fun s => s.2)

/-- Modelled from the spec: the worker of `chainFrom`, walking one version
at a time with `fuel = target - source` steps to go; any missing
intermediate step loses the whole chain. -/
def chainSteps {α : Type} (reg : Registry α) : Nat → Nat → Option (List (α → Except String α))
  | _, 0 => some []
  | v, Nat.succ n =>
    match stepAt reg v with
    | none => none
    | some t => (chainSteps reg (v + 1) n).map (fun rest => t :: rest)

/-- Modelled from the spec: `chainFrom` (design §4.3), absent from src/:
the ordered sequence of migration steps covering `[src, tgt]`, failing
with `NoPathError` when any intermediate step is missing. -/
def chainFrom {α : Type} (reg : Registry α) (src tgt : Nat) :
    Except MigrationError (List (α → Except String α)) :=
  match chainSteps reg src (tgt - src) with
  | none => .error .NoPathError
  | some l => .ok l

/-- Modelled from the spec: application of a whole step chain to a single
record, stopping at the first failing transform. -/
def applyChain {α : Type} : List (α → Except String α) → α → Except String α
  | [], r => .ok r
  | t :: rest, r =>
    match t r with
    | .error c => .error c
    | .ok r2 => applyChain rest r2

/-- Modelled from the spec: per-record loop of the State Migrator (design
§4.4), absent from src/: transform every record of the input store through
the chain, assembling a fresh entry list; one failing record aborts the
whole run with `RecordMigrationError` carrying that record's id and cause. -/
def migrateRecords {α : Type} (steps : List (α → Except String α)) :
    List (String × α) → Except MigrationError (List (String × α))
  | [] => .ok []
  | (k, r) :: rest =>
    match applyChain steps r with
    | .error c => .error (.RecordMigrationError k c)
    | .ok r2 =>
      match migrateRecords steps rest with
      | .error e => .error e
      | .ok out => .ok ((k, r2) :: out)

/-- Modelled from the spec: the RecordStore (design §3), absent from src/:
a mapping from record id to record, tagged with the schema version it
currently satisfies. -/
structure RecordStore (α : Type) where
  version : Nat
  people : List (String × α)
  deriving DecidableEq, Repr

/-- Modelled from the spec: `migrate(store, targetVersion)` of the State
Migrator (design §4.4), absent from src/: obtain the step chain (failing
fast with `NoPathError`), transform every record, and assemble a brand-new
store tagged with the target version; any record failure aborts the run
and no partial store is produced. -/
def migrate {α : Type} (reg : Registry α) (store : RecordStore α) (tgt : Nat) :
    Except MigrationError (RecordStore α) :=
  match chainFrom reg store.version tgt with
  | .error e => .error e
  | .ok steps =>
    match migrateRecords steps store.people with
    | .error e => .error e
    | .ok ppl => .ok ⟨tgt, ppl⟩

/-- Modelled from the spec: the field kinds of a FieldDescriptor (design
§3: string/number/boolean/date/nested-record/array). -/
inductive FieldKind where
  | string
  | number
  | boolean
  | date
  | nestedRecord
  | arrayKind
  deriving DecidableEq, Repr

/-- Modelled from the spec: a FieldDescriptor (design §3): name, kind,
optionality. -/
structure FieldDescriptor where
  name : String
  kind : FieldKind
  optional : Bool
  deriving DecidableEq, Repr

/-- Modelled from the spec: a schema version's field list (design §3). -/
abbrev Schema := List FieldDescriptor

/-- Modelled from the spec: the incompatibilities the Compatibility Checker
reports (design §4.2): a field removed, a field's kind changed, a required
field made optional, or a new required field added without a default. -/
inductive FieldIncompatibility where
  | missingField (name : String)
  | kindChanged (name : String)
  | becameOptional (name : String)
  | breakingAddition (name : String)
  deriving DecidableEq, Repr

/-- Modelled from the spec: the Compatibility Checker's verdict on one
field of the older schema (design §4.2): the newer schema must keep the
field under the same name with an equal kind and no weakened optionality. -/
def fieldIssue (newer : Schema) (f : FieldDescriptor) : Option FieldIncompatibility :=
  match newer.find? (fun g => g.name == f.name) with
  | none => some (.missingField f.name)
  | some g =>
    if g.kind ≠ f.kind then some (.kindChanged f.name)
    else if f.optional = false ∧ g.optional = true then some (.becameOptional f.name)
    else none

/-- Modelled from the spec: the Compatibility Checker's verdict on one
field of the newer schema (design §4.2): a field newly added by the newer
schema is a breaking addition unless it is optional. -/
def additionIssue (older : Schema) (g : FieldDescriptor) : Option FieldIncompatibility :=
  if older.any (fun f => f.name == g.name) then none
  else if g.optional then none
  else some (.breakingAddition g.name)

/-- Modelled from the spec: `isBackwardCompatible(older, newer)` (design
§4.2), absent from src/ (the source uses typechecker assignment tricks
instead): the complete list of incompatibilities, empty exactly when the
newer schema is a safe upgrade of the older. -/
def isBackwardCompatible (older newer : Schema) : List FieldIncompatibility :=
  older.filterMap (fieldIssue newer) ++ newer.filterMap (additionIssue older)

/-! Helper lemmas about the JS object model. -/

theorem find?_replace_self {α : Type} (k : String) (v : α) (m : List (String × α))
    (h : m.any (fun e => e.1 == k) = true) :
    List.find? (fun e => e.1 == k) (m.map (fun e => if e.1 == k then (k, v) else e))
      = some (k, v) := by
  induction m with
  | nil => simp at h
  | cons a t ih =>
    rw [List.map_cons]
    by_cases ha : (a.1 == k) = true
    · rw [if_pos ha, List.find?_cons_of_pos _ (by simp)]
    · rw [if_neg ha, List.find?_cons_of_neg _ (by simpa using ha)]
      exact ih (by simpa [List.any_cons, ha] using h)

theorem find?_replace_other {α : Type} (k i : String) (v : α) (hk : k ≠ i)
    (m : List (String × α)) :
    List.find? (fun e => e.1 == i) (m.map (fun e => if e.1 == k then (k, v) else e))
      = List.find? (fun e => e.1 == i) m := by
  induction m with
  | nil => rfl
  | cons a t ih =>
    rw [List.map_cons]
    by_cases ha : (a.1 == k) = true
    · have hak : a.1 = k := by simpa using ha
      have hai : ¬ ((fun e : String × α => e.1 == i) a = true) := by simp [hak, hk]
      rw [if_pos ha,
        @List.find?_cons_of_neg _ (fun e => e.1 == i) (k, v)
          (t.map (fun e => if e.1 == k then (k, v) else e)) (by simpa using hk),
        @List.find?_cons_of_neg _ (fun e => e.1 == i) a t hai, ih]
    · rw [if_neg ha]
      by_cases hai : ((fun e : String × α => e.1 == i) a = true)
      · rw [@List.find?_cons_of_pos _ (fun e => e.1 == i) a
            (t.map (fun e => if e.1 == k then (k, v) else e)) hai,
          @List.find?_cons_of_pos _ (fun e => e.1 == i) a t hai]
      · rw [@List.find?_cons_of_neg _ (fun e => e.1 == i) a
            (t.map (fun e => if e.1 == k then (k, v) else e)) hai,
          @List.find?_cons_of_neg _ (fun e => e.1 == i) a t hai, ih]

theorem objGet_objSet_self {α : Type} (m : List (String × α)) (k : String) (v : α) :
    objGet (objSet m k v) k = some v := by
  unfold objSet objGet
  by_cases h : m.any (fun e => e.1 == k) = true
  · rw [if_pos h, find?_replace_self k v m h]
    rfl
  · rw [if_neg h]
    have hnone : m.find? (fun e => e.1 == k) = none := by
      rw [List.find?_eq_none]
      intro x hx hpx
      exact h (List.any_eq_true.mpr ⟨x, hx, hpx⟩)
    rw [List.find?_append, hnone]
    simp

theorem objGet_objSet_other {α : Type} (m : List (String × α)) (k i : String) (v : α)
    (hk : k ≠ i) : objGet (objSet m k v) i = objGet m i := by
  unfold objSet objGet
  by_cases h : m.any (fun e => e.1 == k) = true
  · rw [if_pos h, find?_replace_other k i v hk m]
  · rw [if_neg h]
    rw [List.find?_append]
    cases hf : m.find? (fun e => e.1 == i) with
    | none => simp [hf, List.find?, show (k == i) = false by simp [hk]]
    | some x => simp [hf]

theorem foldl_addPerson_none {α : Type} (idOf : α → String) (id : String) :
    ∀ (added : List α) (s : List (String × α)),
      (∀ p ∈ added, idOf p ≠ id) → objGet s id = none →
      objGet (added.foldl (addPerson idOf) s) id = none
  | [], _, _, hs => hs
  | p :: t, s, h, hs => by
    rw [List.foldl_cons]
    exact foldl_addPerson_none idOf id t (addPerson idOf s p)
      (fun q hq => h q (List.mem_cons_of_mem _ hq))
      (by unfold addPerson
          rw [objGet_objSet_other s (idOf p) id p (h p (List.mem_cons_self p t))]
          exact hs)

/-- C9: on every api instance version (v1 through v4, src/index.js lines
56-64, 66-77, 90-98, 114-126), adding a person and then fetching by that
person's own id returns exactly that person: `addPerson` keys the record by
the person's `id` field and `getPerson` reads that key. -/
theorem addPerson_getPerson_roundtrip :
    (∀ (people : List (String × v1Person)) (p : v1Person),
      getPerson (addPerson (fun q => q.id) people p) p.id = some p) ∧
    (∀ (people : List (String × v2Person)) (p : v2Person),
      getPerson (addPerson (fun q => q.id) people p) p.id = some p) ∧
    (∀ (people : List (String × v3Person)) (p : v3Person),
      getPerson (addPerson (fun q => q.id) people p) p.id = some p) ∧
    (∀ (people : List (String × v4Person)) (p : v4Person),
      getPerson (addPerson (fun q => q.id) people p) p.id = some p) :=
  ⟨fun people p => objGet_objSet_self people p.id p,
   fun people p => objGet_objSet_self people p.id p,
   fun people p => objGet_objSet_self people p.id p,
   fun people p => objGet_objSet_self people p.id p⟩

/-- C10: on a store built only by `addPerson` calls, `getPerson` of an id
that was never added returns no person (`this.people[id]` is JavaScript's
`undefined`, embedded as `none`) and raises no error, even though the
declared `v1Api` interface promises a person. -/
theorem getPerson_never_added {α : Type} (idOf : α → String) (added : List α)
    (id : String) (h : ∀ p ∈ added, idOf p ≠ id) :
    getPerson (added.foldl (addPerson idOf) []) id = none :=
  foldl_addPerson_none idOf id added [] h rfl

/-- Witness for C10: the id "2" was never added to a store holding only
fred (id "1"), and fetching it returns none. -/
theorem getPerson_never_added_witness :
    (∀ p ∈ [fredPerson], v1Person.id p ≠ "2") ∧
      getPerson ([fredPerson].foldl (addPerson v1Person.id) []) "2" = none :=
  ⟨by decide, getPerson_never_added v1Person.id [fredPerson] "2" (by decide)⟩

theorem migrateFold_append (now : Int) :
    ∀ (people : List (String × v3Person)) (acc : List (String × v4Person)),
      (∀ e ∈ people, acc.any (fun a => a.1 == e.1) = false) →
      (people.map Prod.fst).Nodup →
      people.foldl (fun acc e => objSet acc e.1 (v3PersonTov4Person now e.2)) acc
        = acc ++ people.map (fun e => (e.1, v3PersonTov4Person now e.2))
  | [], acc, _, _ => by simp
  | (k, r) :: rest, acc, habs, hnd => by
    rw [List.foldl_cons]
    have hke : acc.any (fun a => a.1 == k) = false := habs (k, r) (List.mem_cons_self _ _)
    have hset : objSet acc k (v3PersonTov4Person now r)
        = acc ++ [(k, v3PersonTov4Person now r)] := by
      unfold objSet
      rw [if_neg (by simp [hke])]
    have hnd' : (k :: rest.map Prod.fst).Nodup := by
      rw [List.map_cons] at hnd
      exact hnd
    have hknotin : k ∉ rest.map Prod.fst := (List.nodup_cons.mp hnd').1
    have habs2 : ∀ e ∈ rest,
        (acc ++ [(k, v3PersonTov4Person now r)]).any (fun a => a.1 == e.1) = false := by
      intro e he
      rw [List.any_append]
      have h1 : acc.any (fun a => a.1 == e.1) = false :=
        habs e (List.mem_cons_of_mem _ he)
      have h2 : (k == e.1) = false := by
        have : k ≠ e.1 := by
          intro hkeq
          exact hknotin (hkeq ▸ List.mem_map_of_mem Prod.fst he)
        simp [this]
      simp [h1, h2]
    have hnd2 : (rest.map Prod.fst).Nodup := (List.nodup_cons.mp hnd').2
    rw [hset, migrateFold_append now rest (acc ++ [(k, v3PersonTov4Person now r)]) habs2 hnd2]
    simp

/-- C2: migrating a v3 store of N records (distinct keys, as JS object keys
are) through the v3 to v4 step of src/index.js lines 116-119 produces
exactly N output records, each carrying the computed `birth` value (the
field is always present and set, never null), and migrating an empty store
produces an empty store with no error. -/
theorem migrateV3toV4_complete (now : Int) (people : List (String × v3Person))
    (h : (people.map Prod.fst).Nodup) :
    (migrateV3toV4 now people).length = people.length ∧
    (∀ e ∈ migrateV3toV4 now people, e.2.birth = now - tenYearsish) ∧
    migrateV3toV4 now ([] : List (String × v3Person)) = [] := by
  have key : migrateV3toV4 now people
      = people.map (fun e => (e.1, v3PersonTov4Person now e.2)) := by
    unfold migrateV3toV4
    rw [migrateFold_append now people [] (fun e _ => rfl) h]
    simp
  refine ⟨?_, ?_, rfl⟩
  · rw [key, List.length_map]
  · rw [key]
    intro e he
    rcases List.mem_map.mp he with ⟨a, _, rfl⟩
    rfl

/-- Example v3 store with two records used to witness C2. -/
def peopleV3 : List (String × v3Person) :=
  [("1", ⟨"1", "fred", 23⟩), ("2", ⟨"2", "barney", 25⟩)]

/-- Witness for C2: a two-record v3 store with distinct keys migrates to
two v4 records, each with the computed birth value, and the empty store
migrates to the empty store. -/
theorem migrateV3toV4_complete_witness :
    ((peopleV3.map Prod.fst).Nodup) ∧
      ((migrateV3toV4 1000 peopleV3).length = peopleV3.length ∧
       (∀ e ∈ migrateV3toV4 1000 peopleV3, e.2.birth = 1000 - tenYearsish) ∧
       migrateV3toV4 1000 ([] : List (String × v3Person)) = []) :=
  ⟨by decide, migrateV3toV4_complete 1000 peopleV3 (by decide)⟩

theorem any_key_congr {α : Type} (k : String) :
    ∀ (l1 l2 : List (String × α)), l1.map Prod.fst = l2.map Prod.fst →
      l1.any (fun e => e.1 == k) = l2.any (fun e => e.1 == k)
  | [], [], _ => rfl
  | [], _ :: _, h => by simp at h
  | _ :: _, [], h => by simp at h
  | a :: t1, b :: t2, h => by
    rw [List.map_cons, List.map_cons] at h
    injection h with h1 h2
    rw [List.any_cons, List.any_cons, h1, any_key_congr k t1 t2 h2]

theorem entryContent_objSet (acc1 acc2 : List (String × v4Person)) (k : String)
    (w1 w2 : v4Person) (hw : personContent w1 = personContent w2)
    (h : acc1.map entryContent = acc2.map entryContent) :
    (objSet acc1 k w1).map entryContent = (objSet acc2 k w2).map entryContent := by
  have hkeys : acc1.map Prod.fst = acc2.map Prod.fst := by
    have h1 : acc1.map Prod.fst = (acc1.map entryContent).map Prod.fst := by
      rw [List.map_map]
      rfl
    have h2 : acc2.map Prod.fst = (acc2.map entryContent).map Prod.fst := by
      rw [List.map_map]
      rfl
    rw [h1, h2, h]
  have hany : acc1.any (fun e => e.1 == k) = acc2.any (fun e => e.1 == k) :=
    any_key_congr k acc1 acc2 hkeys
  have lem : ∀ (acc : List (String × v4Person)) (w : v4Person),
      (acc.map (fun e => if e.1 == k then (k, w) else e)).map entryContent
        = (acc.map entryContent).map
            (fun e => if e.1 == k then (k, personContent w) else e) := by
    intro acc w
    rw [List.map_map, List.map_map]
    have hfun : (entryContent ∘ fun e : String × v4Person => if e.1 == k then (k, w) else e)
        = ((fun e : String × String × String × Int =>
            if e.1 == k then (k, personContent w) else e) ∘ entryContent) := by
      funext e
      by_cases he : (e.1 == k) = true
      · have he2 : ((entryContent e).1 == k) = true := he
        show entryContent (if e.1 == k then (k, w) else e)
          = if (entryContent e).1 == k then (k, personContent w) else entryContent e
        rw [if_pos he, if_pos he2]
        rfl
      · have he2 : ¬ ((entryContent e).1 == k) = true := he
        show entryContent (if e.1 == k then (k, w) else e)
          = if (entryContent e).1 == k then (k, personContent w) else entryContent e
        rw [if_neg he, if_neg he2]
    rw [hfun]
  unfold objSet
  by_cases hc : acc1.any (fun e => e.1 == k) = true
  · rw [if_pos hc, if_pos (by rw [← hany]; exact hc), lem acc1 w1, lem acc2 w2, h, hw]
  · rw [if_neg hc, if_neg (by rw [← hany]; exact hc), List.map_append, List.map_append, h]
    have hsame : entryContent (k, w1) = entryContent (k, w2) := by
      show (k, personContent w1) = (k, personContent w2)
      rw [hw]
    simp only [List.map_cons, List.map_nil, hsame]

theorem migrateFold_content (now1 now2 : Int) :
    ∀ (people : List (String × v3Person)) (acc1 acc2 : List (String × v4Person)),
      acc1.map entryContent = acc2.map entryContent →
      (people.foldl (fun acc e => objSet acc e.1 (v3PersonTov4Person now1 e.2)) acc1).map
          entryContent
        = (people.foldl (fun acc e => objSet acc e.1 (v3PersonTov4Person now2 e.2)) acc2).map
            entryContent
  | [], _, _, h => h
  | e :: rest, acc1, acc2, h => by
    rw [List.foldl_cons, List.foldl_cons]
    exact migrateFold_content now1 now2 rest _ _
      (entryContent_objSet acc1 acc2 e.1 _ _ rfl h)

/-- C3 counterexample: the v3 to v4 transform of src/index.js line 130
reads the ambient clock (`new Date()`), so two runs of the migration over
the same untouched one-record store, performed at clock readings 0 and 1,
yield stores that are not equal in content: the birth fields differ. -/
theorem migrateV3toV4_two_runs_differ :
    migrateV3toV4 0 [("1", fredPerson)] ≠ migrateV3toV4 1 [("1", fredPerson)] := by
  decide

/-- C3 amended: two runs of the v3 to v4 migration at the same clock
reading yield identical results, and runs at any two clock readings agree
on the id, name and age of every record and on the key order; full content
equality across arbitrary retries fails only on the clock-derived `birth`
field. -/
theorem migrateV3toV4_deterministic (now1 now2 : Int)
    (people : List (String × v3Person)) :
    (now1 = now2 → migrateV3toV4 now1 people = migrateV3toV4 now2 people) ∧
    (migrateV3toV4 now1 people).map entryContent
      = (migrateV3toV4 now2 people).map entryContent := by
  constructor
  · intro h
    rw [h]
  · exact migrateFold_content now1 now2 people [] [] rfl

theorem migrateRecords_ok_spec {α : Type} (steps : List (α → Except String α)) :
    ∀ (ps qs : List (String × α)), migrateRecords steps ps = .ok qs →
      qs.map Prod.fst = ps.map Prod.fst ∧
      ∀ e ∈ ps, ∃ r2, applyChain steps e.2 = .ok r2 ∧ (e.1, r2) ∈ qs
  | [], qs, h => by
    have heq : migrateRecords steps ([] : List (String × α)) = .ok [] := rfl
    rw [heq] at h
    injection h with h2
    subst h2
    exact ⟨rfl, fun e he => absurd he (List.not_mem_nil e)⟩
  | (k, r) :: rest, qs, h => by
    cases hac : applyChain steps r with
    | error c =>
      have heq : migrateRecords steps ((k, r) :: rest)
          = .error (.RecordMigrationError k c) := by
        unfold migrateRecords
        rw [hac]
      rw [heq] at h
      exact absurd h (by simp)
    | ok r2 =>
      cases hrec : migrateRecords steps rest with
      | error e0 =>
        have heq : migrateRecords steps ((k, r) :: rest) = .error e0 := by
          unfold migrateRecords
          rw [hac, hrec]
        rw [heq] at h
        exact absurd h (by simp)
      | ok out =>
        have heq : migrateRecords steps ((k, r) :: rest) = .ok ((k, r2) :: out) := by
          unfold migrateRecords
          rw [hac, hrec]
        rw [heq] at h
        injection h with h2
        subst h2
        obtain ⟨hkeys, hmem⟩ := migrateRecords_ok_spec steps rest out hrec
        refine ⟨by rw [List.map_cons, List.map_cons, hkeys], ?_⟩
        intro e he
        rcases List.mem_cons.mp he with rfl | htail
        · exact ⟨r2, hac, List.mem_cons_self _ _⟩
        · obtain ⟨r3, ha3, hm3⟩ := hmem e htail
          exact ⟨r3, ha3, List.mem_cons_of_mem _ hm3⟩

/-- C1: the spec-modelled `migrate` is atomic. For every source store and
target version either the run succeeds and returns a complete brand-new
store tagged with the target version, holding exactly the source's record
ids (in order) with every record transformed through the step chain, or
the run fails with an error and no store at all is returned. The embedding
is state-free: `migrate` only reads its store argument, so the source
store value is untouched and remains valid for any caller holding it. -/
theorem migrate_atomic {α : Type} (reg : Registry α) (store : RecordStore α) (tgt : Nat) :
    (∃ out, migrate reg store tgt = .ok out ∧ out.version = tgt ∧
      out.people.map Prod.fst = store.people.map Prod.fst ∧
      ∃ steps, chainFrom reg store.version tgt = .ok steps ∧
        ∀ e ∈ store.people, ∃ r2, applyChain steps e.2 = .ok r2 ∧ (e.1, r2) ∈ out.people)
    ∨ (∃ err, migrate reg store tgt = .error err ∧
        ∀ out, migrate reg store tgt ≠ .ok out) := by
  cases hc : chainFrom reg store.version tgt with
  | error e =>
    have heq : migrate reg store tgt = .error e := by
      simp only [migrate, hc]
    refine Or.inr ⟨e, heq, ?_⟩
    intro out h
    rw [heq] at h
    exact absurd h (by simp)
  | ok steps =>
    cases hm : migrateRecords steps store.people with
    | error e =>
      have heq : migrate reg store tgt = .error e := by
        simp only [migrate, hc, hm]
      refine Or.inr ⟨e, heq, ?_⟩
      intro out h
      rw [heq] at h
      exact absurd h (by simp)
    | ok ppl =>
      have heq : migrate reg store tgt = .ok ⟨tgt, ppl⟩ := by
        simp only [migrate, hc, hm]
      obtain ⟨hkeys, hmem⟩ := migrateRecords_ok_spec steps store.people ppl hm
      exact Or.inl ⟨⟨tgt, ppl⟩, heq, rfl, hkeys, steps, rfl, hmem⟩

theorem migrateRecords_fails {α : Type} (steps : List (α → Except String α)) :
    ∀ (ps : List (String × α)) (k : String) (r : α) (c : String),
      (k, r) ∈ ps → applyChain steps r = .error c →
      ∃ rid cause r2, migrateRecords steps ps = .error (.RecordMigrationError rid cause) ∧
        (rid, r2) ∈ ps ∧ applyChain steps r2 = .error cause
  | [], _, _, _, hmem, _ => absurd hmem (List.not_mem_nil _)
  | (k0, r0) :: rest, k, r, c, hmem, hfail => by
    cases hac : applyChain steps r0 with
    | error c0 =>
      have heq : migrateRecords steps ((k0, r0) :: rest)
          = .error (.RecordMigrationError k0 c0) := by
        unfold migrateRecords
        rw [hac]
      exact ⟨k0, c0, r0, heq, List.mem_cons_self _ _, hac⟩
    | ok r2 =>
      have htail : (k, r) ∈ rest := by
        rcases List.mem_cons.mp hmem with heq0 | htail
        · injection heq0 with h1 h2
          rw [h2, hac] at hfail
          exact absurd hfail (by simp)
        · exact htail
      obtain ⟨rid, cause, r3, hrec, hm, hf⟩ :=
        migrateRecords_fails steps rest k r c htail hfail
      have heq : migrateRecords steps ((k0, r0) :: rest)
          = .error (.RecordMigrationError rid cause) := by
        unfold migrateRecords
        rw [hac, hrec]
      exact ⟨rid, cause, r3, heq, List.mem_cons_of_mem _ hm, hf⟩

/-- C4: when the transform chain fails on some record of the source store,
the spec-modelled `migrate` aborts the whole run with a
`RecordMigrationError` carrying a failing record's identifier and cause; no
store is returned (no partial new store), and the source store value,
being only read, is intact. -/
theorem migrate_record_failure {α : Type} (reg : Registry α) (store : RecordStore α)
    (tgt : Nat) (steps : List (α → Except String α)) (k : String) (r : α) (c : String)
    (hchain : chainFrom reg store.version tgt = .ok steps)
    (hmem : (k, r) ∈ store.people)
    (hfail : applyChain steps r = .error c) :
    ∃ rid cause r2, migrate reg store tgt = .error (.RecordMigrationError rid cause) ∧
      (rid, r2) ∈ store.people ∧ applyChain steps r2 = .error cause ∧
      ∀ out, migrate reg store tgt ≠ .ok out := by
  obtain ⟨rid, cause, r2, hrec, hm, hf⟩ :=
    migrateRecords_fails steps store.people k r c hmem hfail
  have heq : migrate reg store tgt = .error (.RecordMigrationError rid cause) := by
    simp only [migrate, hchain, hrec]
  refine ⟨rid, cause, r2, heq, hm, hf, ?_⟩
  intro out hcontra
  rw [heq] at hcontra
  exact absurd hcontra (by simp)

/-- Identity per-record migration step (the v1 to v2 migration of
src/index.js line 67 copies records unchanged). -/
def identityStep : v1Person → Except String v1Person := fun p => .ok p

/-- A migration step whose transform always raises, used to witness C4. -/
def boomStep : v1Person → Except String v1Person := fun _ => .error "boom"

/-- Registry holding only the failing step out of version 1. -/
def boomRegistry : Registry v1Person := ⟨[(1, boomStep)]⟩

/-- The store of the example workflow of src/index.js line 82 after
`addPerson` of fred, tagged version 1. -/
def fredStoreV1 : RecordStore v1Person := ⟨1, [("1", fredPerson)]⟩

/-- Witness for C4: migrating fred's store with the failing step aborts
with `RecordMigrationError` naming record "1" and cause "boom". -/
theorem migrate_record_failure_witness :
    ∃ rid cause r2,
      migrate boomRegistry fredStoreV1 2 = .error (.RecordMigrationError rid cause) ∧
      (rid, r2) ∈ fredStoreV1.people ∧ applyChain [boomStep] r2 = .error cause ∧
      ∀ out, migrate boomRegistry fredStoreV1 2 ≠ .ok out :=
  migrate_record_failure boomRegistry fredStoreV1 2 [boomStep] "1" fredPerson "boom"
    rfl (List.mem_cons_self _ _) rfl

/-- Registry holding the identity step from version 1 to version 2. -/
def regV1toV2 : Registry v1Person := ⟨[(1, identityStep)]⟩

/-- C5: registering an identity-copy step for v1 to v2 and migrating the
store with content fred under key "1" (src/index.js lines 67 and 79-84)
yields a store with the same single record, tagged version 2; the
`Object.assign` copy of line 67 reproduces the content exactly, and the
original v1 store value is unchanged afterward (the migration only reads
it). -/
theorem migrate_fred_store_v1_to_v2 :
    registerStep (Registry.mk ([] : List (Nat × (v1Person → Except String v1Person)))) 1 2
        identityStep = .ok regV1toV2 ∧
    migrate regV1toV2 ⟨1, [("1", fredPerson)]⟩ 2 = .ok ⟨2, [("1", fredPerson)]⟩ ∧
    objectAssign [] [("1", fredPerson)] = [("1", fredPerson)] ∧
    (RecordStore.mk 1 [("1", fredPerson)]).people = [("1", fredPerson)] :=
  ⟨rfl, rfl, rfl, rfl⟩

theorem find?_name_self : ∀ (A : Schema), (A.map FieldDescriptor.name).Nodup →
    ∀ f ∈ A, A.find? (fun g => g.name == f.name) = some f
  | [], _, f, hf => absurd hf (List.not_mem_nil f)
  | a :: t, hnd, f, hf => by
    rw [List.map_cons] at hnd
    have hp := List.nodup_cons.mp hnd
    rcases List.mem_cons.mp hf with rfl | htail
    · rw [List.find?_cons_of_pos _ (by simp)]
    · have hne : ¬ ((fun g : FieldDescriptor => g.name == f.name) a = true) := by
        have hne2 : a.name ≠ f.name := by
          intro hcontra
          exact hp.1 (hcontra ▸ List.mem_map_of_mem FieldDescriptor.name htail)
        simpa using hne2
      rw [@List.find?_cons_of_neg _ (fun g => g.name == f.name) a t hne]
      exact find?_name_self t hp.2 f htail

/-- C6: for schemas with distinct field names, extending a schema by
optional fields only is accepted by the spec-modelled backward
compatibility check: the incompatibility list is empty. -/
theorem isBackwardCompatible_add_optional (A ext : Schema)
    (hnd : (A.map FieldDescriptor.name).Nodup)
    (hopt : ∀ g ∈ ext, g.optional = true) :
    isBackwardCompatible A (A ++ ext) = [] := by
  unfold isBackwardCompatible
  refine List.append_eq_nil.mpr ⟨?_, ?_⟩
  · rw [List.filterMap_eq_nil_iff]
    intro f hf
    have hfind : (A ++ ext).find? (fun g => g.name == f.name) = some f := by
      rw [List.find?_append, find?_name_self A hnd f hf]
      rfl
    simp only [fieldIssue, hfind]
    rw [if_neg (by simp)]
    rw [if_neg ?_]
    intro hcontra
    rw [hcontra.1] at hcontra
    exact Bool.false_ne_true hcontra.2
  · rw [List.filterMap_eq_nil_iff]
    intro g hg
    unfold additionIssue
    rcases List.mem_append.mp hg with hA | hExt
    · rw [if_pos (List.any_eq_true.mpr ⟨g, hA, by simp⟩)]
    · by_cases hA2 : A.any (fun f => f.name == g.name) = true
      · rw [if_pos hA2]
      · rw [if_neg hA2, if_pos (hopt g hExt)]

/-- Schema of the v1 person record: id, name, age, all required. -/
def schemaV1 : Schema :=
  [⟨"id", .string, false⟩, ⟨"name", .string, false⟩, ⟨"age", .number, false⟩]

/-- An extension consisting of one optional field. -/
def optionalExt : Schema := [⟨"nickname", .string, true⟩]

/-- Witness for C6: adding the optional nickname field to the v1 schema
passes the backward compatibility check. -/
theorem isBackwardCompatible_add_optional_witness :
    ((schemaV1.map FieldDescriptor.name).Nodup ∧ ∀ g ∈ optionalExt, g.optional = true) ∧
      isBackwardCompatible schemaV1 (schemaV1 ++ optionalExt) = [] :=
  ⟨⟨by decide, by decide⟩,
    isBackwardCompatible_add_optional schemaV1 optionalExt (by decide) (by decide)⟩

/-- C7: removing a field present in the older schema makes the
spec-modelled backward compatibility check fail, and every such removed
field is named by a `missingField` entry of the incompatibility list
(the list is complete, not only the first finding), so the list is not
empty. -/
theorem isBackwardCompatible_missing_field (A B : Schema) (f : FieldDescriptor)
    (hf : f ∈ A) (hmiss : ∀ g ∈ B, g.name ≠ f.name) :
    FieldIncompatibility.missingField f.name ∈ isBackwardCompatible A B ∧
    isBackwardCompatible A B ≠ [] := by
  have hnone : B.find? (fun g => g.name == f.name) = none := by
    rw [List.find?_eq_none]
    intro g hg
    simpa using hmiss g hg
  have hissue : fieldIssue B f = some (.missingField f.name) := by
    simp only [fieldIssue, hnone]
  have hmem : FieldIncompatibility.missingField f.name ∈ A.filterMap (fieldIssue B) :=
    List.mem_filterMap.mpr ⟨f, hf, hissue⟩
  have hmem2 : FieldIncompatibility.missingField f.name ∈ isBackwardCompatible A B := by
    unfold isBackwardCompatible
    exact List.mem_append.mpr (Or.inl hmem)
  exact ⟨hmem2, List.ne_nil_of_mem hmem2⟩

/-- The v1 schema with the age field removed. -/
def schemaNoAge : Schema := [⟨"id", .string, false⟩, ⟨"name", .string, false⟩]

/-- The age field of the v1 schema. -/
def ageField : FieldDescriptor := ⟨"age", .number, false⟩

/-- Witness for C7: dropping age from the v1 schema is reported as a
missing field and the check fails. -/
theorem isBackwardCompatible_missing_field_witness :
    (ageField ∈ schemaV1 ∧ ∀ g ∈ schemaNoAge, g.name ≠ ageField.name) ∧
      (FieldIncompatibility.missingField ageField.name
          ∈ isBackwardCompatible schemaV1 schemaNoAge ∧
        isBackwardCompatible schemaV1 schemaNoAge ≠ []) :=
  ⟨⟨by decide, by decide⟩,
    isBackwardCompatible_missing_field schemaV1 schemaNoAge ageField (by decide) (by decide)⟩

/-- A registry with steps 1 to 2 and 3 to 4 registered but no 2 to 3. -/
def gapRegistry : Registry v1Person := ⟨[(1, identityStep), (3, identityStep)]⟩

/-- C8: the spec-modelled registry rejects `registerStep` when the target
is not the source plus one, and rejects a second step for a source that
already has one; and any registry with no step out of version 2 (such as
`gapRegistry`, holding 1 to 2 and 3 to 4, itself reachable by a legal
`registerStep` call) makes `chainFrom` from 1 to 4 fail with
`NoPathError`. -/
theorem registerStep_chainFrom_gap {α : Type} (reg : Registry α) (src tgt : Nat)
    (t : α → Except String α) :
    (tgt ≠ src + 1 → registerStep reg src tgt t = .error .stepSkipsVersion) ∧
    (stepAt reg src ≠ none → registerStep reg src (src + 1) t = .error .duplicateStep) ∧
    (∀ reg2 : Registry α, stepAt reg2 2 = none → chainFrom reg2 1 4 = .error .NoPathError) ∧
    chainFrom gapRegistry 1 4 = .error .NoPathError ∧
    registerStep (Registry.mk [(1, identityStep)]) 3 4 identityStep = .ok gapRegistry := by
  refine ⟨?_, ?_, ?_, rfl, rfl⟩
  · intro h
    unfold registerStep
    rw [if_pos h]
  · intro h
    unfold registerStep
    rw [if_neg (by simp)]
    have hfind : ∃ s, reg.steps.find? (fun s => s.1 == src) = some s := by
      unfold stepAt at h
      cases hf : reg.steps.find? (fun s => s.1 == src) with
      | none => rw [hf] at h; simp at h
      | some s => exact ⟨s, rfl⟩
    obtain ⟨s, hs⟩ := hfind
    have hmem := List.mem_of_find?_eq_some hs
    have hps := List.find?_some hs
    have hany : reg.steps.any (fun s => s.1 == src) = true :=
      List.any_eq_true.mpr ⟨s, hmem, hps⟩
    rw [if_pos hany]
  · intro reg2 h2
    have h22 : chainSteps reg2 2 (Nat.succ 1) = none := by
      rw [chainSteps, h2]
    have hc3 : chainSteps reg2 1 (Nat.succ 2) = none := by
      rw [chainSteps]
      cases h1 : stepAt reg2 1 with
      | none => rfl
      | some t1 =>
        have h22b : chainSteps reg2 (1 + 1) 2 = none := h22
        rw [h22b]
        rfl
    have hc3b : chainSteps reg2 1 (4 - 1) = none := hc3
    simp only [chainFrom, hc3b]

end Veawco
